import Mathlib

/-!
Shallow embedding of the `quorum-reporting` Elasticsearch database backend and
the Solidity storage parser, with theorems checking the natural-language
specification against the code.

Sources embedded:
* `database/elasticsearch/elasticsearch_database.go` — block writes and the
  `lastPersisted` watermark, per-address `lastFiltered`, ERC-721 token records,
  the five-chunk sort key, pagination gates, address registration, ABI lookups.
* `core/storageparsing/array.go` and `core/storageparsing/parsers/utils.go` —
  static/dynamic array entry synthesis and single-storage extraction.
-/

namespace QuorumReport

/-! ## Block store and the lastPersisted watermark

Embeds `WriteBlock`, `WriteBlocks`, `updateLastPersisted` and
`GetLastPersistedBlockNumber` from `elasticsearch_database.go`.  The store is
modelled by the set of block numbers having a written document plus the single
`Meta/lastPersisted` value.  `ReadBlock n` succeeds exactly when `n` is in the
set.  The Go probe loop `for { if block, _ := es.ReadBlock(blockNumber+1); ... }`
terminates because the store is finite; the embedding makes that explicit with
fuel `card + 1`, which the termination lemma below shows is never exhausted
before the loop's own exit condition fires. -/

structure Block where
  number : ℕ
  deriving DecidableEq, Repr

structure BlockDB where
  blocks : Finset ℕ
  lastPersisted : ℕ
  deriving DecidableEq

/-- The state created by `init`: no block documents, `lastPersisted = 0`. -/
def initialBlockDB : BlockDB := ⟨∅, 0⟩

/-- The probe loop inside `updateLastPersisted`: advance `n` while the block
`n + 1` has a document. -/
def probeLoop (written : Finset ℕ) : ℕ → ℕ → ℕ
  | 0, n => n
  | fuel + 1, n => if n + 1 ∈ written then probeLoop written fuel (n + 1) else n

/-- `updateLastPersisted(startingBlockNumber)`: if the starting number is
exactly `lastPersisted + 1`, probe forward through contiguously present blocks
and commit the result; otherwise leave the watermark unchanged. -/
def updateLastPersisted (st : BlockDB) (startingBlockNumber : ℕ) : BlockDB :=
  if startingBlockNumber = st.lastPersisted + 1 then
    { st with lastPersisted := probeLoop st.blocks (st.blocks.card + 1) startingBlockNumber }
  else st

/-- `WriteBlock(block)`: index the block document, then run
`updateLastPersisted(block.Number)`. -/
def WriteBlock (st : BlockDB) (b : Block) : BlockDB :=
  updateLastPersisted { st with blocks := insert b.number st.blocks } b.number

/-- The `lowest` computation of `WriteBlocks`: fold over the list keeping the
smallest block number, starting from the first element's number. -/
def lowestNumber (b : Block) (rest : List Block) : ℕ :=
  rest.foldl (fun acc blk => if blk.number < acc then blk.number else acc) b.number

/-- `WriteBlocks(blocks)`: empty input is a no-op, a singleton delegates to
`WriteBlock`, otherwise bulk-create every block document and run
`updateLastPersisted(lowest)`.  The bulk path models the successful case (every
`create` succeeds); on an item failure the Go code returns before touching the
watermark. -/
def WriteBlocks (st : BlockDB) (bs : List Block) : BlockDB :=
  match bs with
  | [] => st
  | [b] => WriteBlock st b
  | b :: rest =>
    let st' : BlockDB := { st with blocks := st.blocks ∪ (bs.map Block.number).toFinset }
    updateLastPersisted st' (lowestNumber b rest)

def GetLastPersistedBlockNumber (st : BlockDB) : ℕ := st.lastPersisted

/-- The watermark invariant: every block in `[1..lastPersisted]` is written and
`lastPersisted + 1` is not, i.e. `lastPersisted` is exactly the length of the
gap-free prefix starting at block 1 (block 0 is the genesis convention: the
watermark starts at 0 with nothing written). -/
def GapFree (st : BlockDB) : Prop :=
  (∀ k, 1 ≤ k → k ≤ st.lastPersisted → k ∈ st.blocks) ∧ st.lastPersisted + 1 ∉ st.blocks

instance (st : BlockDB) : Decidable (GapFree st) :=
  decidable_of_iff
    ((∀ k ≤ st.lastPersisted, 1 ≤ k → k ∈ st.blocks) ∧ st.lastPersisted + 1 ∉ st.blocks)
    (by constructor
        · rintro ⟨h1, h2⟩; exact ⟨fun k a b => h1 k b a, h2⟩
        · rintro ⟨h1, h2⟩; exact ⟨fun k a b => h1 k b a, h2⟩)

lemma probeLoop_ge (written : Finset ℕ) :
    ∀ fuel n, n ≤ probeLoop written fuel n := by
  intro fuel
  induction fuel with
  | zero => intro n; simp [probeLoop]
  | succ fuel ih =>
    intro n
    simp only [probeLoop]
    split
    · exact le_trans (Nat.le_succ n) (ih (n + 1))
    · exact le_refl n

lemma probeLoop_mem (written : Finset ℕ) :
    ∀ fuel n k, n < k → k ≤ probeLoop written fuel n → k ∈ written := by
  intro fuel
  induction fuel with
  | zero =>
    intro n k hk hle
    simp only [probeLoop] at hle
    omega
  | succ fuel ih =>
    intro n k hk hle
    simp only [probeLoop] at hle
    split at hle
    · rcases Nat.lt_or_ge (n + 1) k with h | h
      · exact ih (n + 1) k h hle
      · have : k = n + 1 := by omega
        subst this; assumption
    · omega

/-- Either the probe loop exits because the next block is missing, or it burned
all its fuel having verified `fuel` consecutive members of `written`. -/
lemma probeLoop_exit (written : Finset ℕ) :
    ∀ fuel n, probeLoop written fuel n + 1 ∉ written ∨
      (probeLoop written fuel n = n + fuel ∧ ∀ k, n < k → k ≤ n + fuel → k ∈ written) := by
  intro fuel
  induction fuel with
  | zero => intro n; right; exact ⟨by simp [probeLoop], by omega⟩
  | succ fuel ih =>
    intro n
    simp only [probeLoop]
    split
    · rcases ih (n + 1) with h | ⟨heq, hall⟩
      · left; exact h
      · right
        refine ⟨by omega, ?_⟩
        intro k hk hle
        rcases Nat.lt_or_ge (n + 1) k with h | h
        · exact hall k h (by omega)
        · have : k = n + 1 := by omega
          subst this; assumption
    · left; assumption

/-- With fuel `card + 1`, the probe loop always stops at a point whose successor
is missing: it cannot burn all its fuel, because that would exhibit `card + 1`
distinct members of `written`. -/
lemma probeLoop_not_mem (written : Finset ℕ) (n : ℕ) :
    probeLoop written (written.card + 1) n + 1 ∉ written := by
  rcases probeLoop_exit written (written.card + 1) n with h | ⟨_, hall⟩
  · exact h
  · exfalso
    have hsub : Finset.Ioc n (n + (written.card + 1)) ⊆ written := by
      intro k hk
      rw [Finset.mem_Ioc] at hk
      exact hall k hk.1 hk.2
    have hcard := Finset.card_le_card hsub
    rw [Nat.card_Ioc] at hcard
    omega

/-- For a state satisfying `GapFree`, the watermark dominates `m` exactly when
blocks `[1..m]` are all present. -/
lemma gapFree_iff (st : BlockDB) (h : GapFree st) (m : ℕ) :
    m ≤ st.lastPersisted ↔ ∀ k, 1 ≤ k → k ≤ m → k ∈ st.blocks := by
  constructor
  · intro hm k h1 h2
    exact h.1 k h1 (le_trans h2 hm)
  · intro hall
    by_contra hlt
    push_neg at hlt
    exact h.2 (hall (st.lastPersisted + 1) (by omega) (by omega))

/-- `updateLastPersisted` restores `GapFree` whenever the pre-state satisfied
the first half on `[1..lastPersisted]`, the starting number (if it fires) is
present, and position `lastPersisted + 1` can only be the starting number. -/
lemma updateLastPersisted_gapFree (st : BlockDB) (start : ℕ)
    (hpre : ∀ k, 1 ≤ k → k ≤ st.lastPersisted → k ∈ st.blocks)
    (hstart : start = st.lastPersisted + 1 → start ∈ st.blocks)
    (hnext : start ≠ st.lastPersisted + 1 → st.lastPersisted + 1 ∉ st.blocks) :
    GapFree (updateLastPersisted st start) := by
  unfold updateLastPersisted
  split
  · next heq =>
    subst heq
    constructor
    · intro k h1 h2
      simp only at h2 ⊢
      rcases Nat.lt_or_ge st.lastPersisted k with hgt | hle
      · rcases Nat.lt_or_ge (st.lastPersisted + 1) k with hgt2 | hle2
        · exact probeLoop_mem st.blocks _ _ k hgt2 h2
        · have : k = st.lastPersisted + 1 := by omega
          subst this
          exact hstart rfl
      · exact hpre k h1 hle
    · exact probeLoop_not_mem st.blocks _
  · next hne =>
    exact ⟨hpre, hnext hne⟩

lemma writeBlock_gapFree (st : BlockDB) (b : Block) (h : GapFree st) :
    GapFree (WriteBlock st b) := by
  unfold WriteBlock
  apply updateLastPersisted_gapFree
  · intro k h1 h2
    exact Finset.mem_insert_of_mem (h.1 k h1 h2)
  · intro heq
    simp only at heq ⊢
    rw [heq]
    exact Finset.mem_insert_self _ _
  · intro hne
    simp only at hne ⊢
    intro hmem
    rcases Finset.mem_insert.mp hmem with heq | hmem'
    · exact hne heq.symm
    · exact h.2 hmem'

lemma writeBlock_skip (st : BlockDB) (b : Block)
    (hne : b.number ≠ st.lastPersisted + 1) :
    (WriteBlock st b).lastPersisted = st.lastPersisted := by
  unfold WriteBlock updateLastPersisted
  simp only
  rw [if_neg hne]

lemma lowestNumber_spec (rest : List Block) : ∀ (a : ℕ),
    (rest.foldl (fun acc blk => if blk.number < acc then blk.number else acc) a = a ∨
      ∃ blk ∈ rest,
        rest.foldl (fun acc blk => if blk.number < acc then blk.number else acc) a = blk.number) ∧
    rest.foldl (fun acc blk => if blk.number < acc then blk.number else acc) a ≤ a ∧
    ∀ blk ∈ rest,
      rest.foldl (fun acc blk => if blk.number < acc then blk.number else acc) a ≤ blk.number := by
  induction rest with
  | nil => intro a; exact ⟨Or.inl rfl, le_refl a, by simp⟩
  | cons x rest ih =>
    intro a
    simp only [List.foldl_cons]
    by_cases hx : x.number < a
    · rw [if_pos hx]
      rcases ih x.number with ⟨hsrc, hle, hall⟩
      refine ⟨?_, le_trans hle (le_of_lt hx), ?_⟩
      · rcases hsrc with heq | ⟨blk, hmem, heq⟩
        · right; exact ⟨x, List.mem_cons_self x rest, heq⟩
        · right; exact ⟨blk, List.mem_cons_of_mem x hmem, heq⟩
      · intro blk hmem
        rcases List.mem_cons.mp hmem with heq | hmem'
        · subst heq; exact hle
        · exact hall blk hmem'
    · rw [if_neg hx]
      rcases ih a with ⟨hsrc, hle, hall⟩
      refine ⟨?_, hle, ?_⟩
      · rcases hsrc with heq | ⟨blk, hmem, heq⟩
        · left; exact heq
        · right; exact ⟨blk, List.mem_cons_of_mem x hmem, heq⟩
      · intro blk hmem
        rcases List.mem_cons.mp hmem with heq | hmem'
        · subst heq; exact le_trans hle (by omega)
        · exact hall blk hmem'

lemma lowestNumber_mem (b : Block) (rest : List Block) :
    lowestNumber b rest ∈ (b :: rest).map Block.number := by
  rcases (lowestNumber_spec rest b.number).1 with heq | ⟨blk, hmem, heq⟩
  · rw [lowestNumber, heq]; exact List.mem_map_of_mem _ (List.mem_cons_self b rest)
  · rw [lowestNumber, heq]; exact List.mem_map_of_mem _ (List.mem_cons_of_mem b hmem)

lemma lowestNumber_le (b : Block) (rest : List Block) :
    ∀ blk ∈ b :: rest, lowestNumber b rest ≤ blk.number := by
  intro blk hmem
  rcases List.mem_cons.mp hmem with heq | hmem'
  · subst heq; exact (lowestNumber_spec rest blk.number).2.1
  · exact (lowestNumber_spec rest b.number).2.2 blk hmem'

lemma writeBlocks_gapFree (st : BlockDB) (bs : List Block) (h : GapFree st)
    (hpos : ∀ x ∈ bs, 1 ≤ x.number ∧ x.number ∉ st.blocks) :
    GapFree (WriteBlocks st bs) := by
  match bs with
  | [] => exact h
  | [b] => exact writeBlock_gapFree st b h
  | b :: b' :: rest =>
    apply updateLastPersisted_gapFree
    · intro k h1 h2
      exact Finset.mem_union_left _ (h.1 k h1 h2)
    · intro heq
      apply Finset.mem_union_right
      rw [List.mem_toFinset]
      exact lowestNumber_mem b (b' :: rest)
    · intro hne
      simp only at hne ⊢
      intro hmem
      rcases Finset.mem_union.mp hmem with hmem' | hmem'
      · exact h.2 hmem'
      · rw [List.mem_toFinset] at hmem'
        rcases List.mem_map.mp hmem' with ⟨blk, hblk, heq⟩
        have hlow_le : lowestNumber b (b' :: rest) ≤ st.lastPersisted + 1 := by
          rw [← heq]; exact lowestNumber_le b (b' :: rest) blk hblk
        rcases List.mem_map.mp (lowestNumber_mem b (b' :: rest)) with ⟨lb, hlb, hleq⟩
        rcases hpos lb hlb with ⟨hlb1, hlbnotin⟩
        rcases Nat.lt_or_ge (lowestNumber b (b' :: rest)) (st.lastPersisted + 1) with hlt | hge
        · exact hlbnotin (hleq ▸ h.1 _ (hleq ▸ hlb1) (by omega))
        · exact hne (by omega)

/-- **C1.** The `lastPersisted` watermark only covers a gap-free prefix and
moves monotonically.  Amended from the claim: the prefix covered is
`[1..b.number]`, not `[0..b.number]` — block 0 is never required, since the
watermark starts at 0 with no blocks written and `updateLastPersisted` only
fires on `lastPersisted + 1`.  For any state satisfying the watermark
invariant: after `WriteBlock(b)` the invariant is preserved, the watermark
dominates any `m` exactly when blocks `[1..m]` are all present (in particular
`m = b.number`), a write whose number is not `lastPersisted + 1` leaves the
watermark unchanged, and likewise for a successful `WriteBlocks` batch of fresh
blocks numbered at least 1 containing `b`. -/
theorem C1_lastPersisted_watermark (st : BlockDB) (b : Block) (hInv : GapFree st) :
    GapFree (WriteBlock st b) ∧
    (∀ m, m ≤ (WriteBlock st b).lastPersisted ↔
      ∀ k, 1 ≤ k → k ≤ m → k ∈ (WriteBlock st b).blocks) ∧
    (b.number ≠ st.lastPersisted + 1 →
      (WriteBlock st b).lastPersisted = st.lastPersisted) ∧
    ∀ bs : List Block, b ∈ bs → (∀ x ∈ bs, 1 ≤ x.number ∧ x.number ∉ st.blocks) →
      GapFree (WriteBlocks st bs) ∧
        (b.number ≤ (WriteBlocks st bs).lastPersisted ↔
          ∀ k, 1 ≤ k → k ≤ b.number → k ∈ (WriteBlocks st bs).blocks) := by
  refine ⟨writeBlock_gapFree st b hInv, ?_, writeBlock_skip st b, ?_⟩
  · exact gapFree_iff _ (writeBlock_gapFree st b hInv)
  · intro bs hmem hpos
    refine ⟨writeBlocks_gapFree st bs hInv hpos, ?_⟩
    exact gapFree_iff _ (writeBlocks_gapFree st bs hInv hpos) b.number

/-- **C1 counterexample.** The claim as stated (with range `[0..b.number]`)
fails on the code: writing block 1 into a fresh store advances the watermark
to 1, yet block 0 was never written. -/
theorem C1_counterexample :
    1 ≤ (WriteBlock initialBlockDB ⟨1⟩).lastPersisted ∧
    ¬ (∀ k, k ≤ 1 → k ∈ (WriteBlock initialBlockDB ⟨1⟩).blocks) := by
  decide

/-- Witness for `C1_lastPersisted_watermark` at the fresh store and block 1. -/
theorem C1_watermark_witness :
    GapFree (WriteBlock initialBlockDB ⟨1⟩) ∧
    (WriteBlock initialBlockDB ⟨1⟩).lastPersisted = initialBlockDB.lastPersisted + 1 :=
  ⟨(C1_lastPersisted_watermark initialBlockDB ⟨1⟩ (by decide)).1, by decide⟩

/-! ## Per-address lastFiltered and IndexBlocks

Embeds `IndexBlocks` and `updateAllLastFiltered`.  `IndexBlocks` runs the block
indexer and then bulk-updates every registered contract document's
`lastFiltered` to `blocks[len(blocks)-1].Number` — the number of the *last*
block of the list as given.  Only the `lastFiltered` field is modelled here
(the block indexer itself lives in `block_indexer.go`, outside the claim). -/

abbrev Address := ℕ

structure ContractFilterState where
  lastFiltered : Address → ℕ

/-- `updateAllLastFiltered(addresses, lastFiltered)`: one bulk `update` item per
address setting its contract document's `lastFiltered` field. -/
def updateAllLastFiltered (st : ContractFilterState) (addresses : List Address)
    (lastFiltered : ℕ) : ContractFilterState :=
  addresses.foldl
    (fun s a => ⟨fun x => if x = a then lastFiltered else s.lastFiltered x⟩) st

/-- `blocks[len(blocks)-1].Number`; the Go code would panic on an empty list,
which the claims never exercise (the embedding returns 0 there). -/
def lastBlockNumber : List Block → ℕ
  | [] => 0
  | [b] => b.number
  | _ :: b :: rest => lastBlockNumber (b :: rest)

/-- `IndexBlocks(addresses, blocks)` restricted to its `lastFiltered` effect:
`updateAllLastFiltered(addresses, blocks[len(blocks)-1].Number)`. -/
def IndexBlocks (st : ContractFilterState) (addresses : List Address)
    (blocks : List Block) : ContractFilterState :=
  updateAllLastFiltered st addresses (lastBlockNumber blocks)

/-- The maximum block number occurring in the list (0 for the empty list). -/
def maxBlockNumber (blocks : List Block) : ℕ :=
  blocks.foldl (fun acc blk => max acc blk.number) 0

lemma updateAllLastFiltered_cons (st : ContractFilterState) (x : Address)
    (rest : List Address) (v : ℕ) :
    updateAllLastFiltered st (x :: rest) v =
      updateAllLastFiltered ⟨fun y => if y = x then v else st.lastFiltered y⟩ rest v := rfl

lemma updateAllLastFiltered_skip (addresses : List Address) (v : ℕ) :
    ∀ (st : ContractFilterState) (a : Address), a ∉ addresses →
      (updateAllLastFiltered st addresses v).lastFiltered a = st.lastFiltered a := by
  induction addresses with
  | nil => intro st a _; rfl
  | cons x rest ih =>
    intro st a ha
    rw [updateAllLastFiltered_cons, ih _ a (fun h => ha (List.mem_cons_of_mem x h))]
    simp only
    rw [if_neg (fun (h : a = x) => ha (h ▸ List.mem_cons_self x rest))]

lemma updateAllLastFiltered_mem (addresses : List Address) (v : ℕ) :
    ∀ (st : ContractFilterState) (a : Address), a ∈ addresses →
      (updateAllLastFiltered st addresses v).lastFiltered a = v := by
  induction addresses with
  | nil => intro st a ha; cases ha
  | cons x rest ih =>
    intro st a ha
    rw [updateAllLastFiltered_cons]
    by_cases hr : a ∈ rest
    · exact ih _ a hr
    · have hax : a = x := by
        rcases List.mem_cons.mp ha with h | h
        · exact h
        · exact absurd h hr
      rw [updateAllLastFiltered_skip rest v _ a hr]
      simp only
      rw [if_pos hax]

lemma maxBlockNumber_aux (blocks : List Block) : ∀ a : ℕ,
    blocks.foldl (fun acc blk => max acc blk.number) a =
      max a (blocks.foldl (fun acc blk => max acc blk.number) 0) := by
  induction blocks with
  | nil => intro a; simp
  | cons x rest ih =>
    intro a
    simp only [List.foldl_cons]
    rw [ih (max a x.number), ih (max 0 x.number)]
    omega

lemma le_maxBlockNumber (blocks : List Block) :
    ∀ blk ∈ blocks, blk.number ≤ maxBlockNumber blocks := by
  induction blocks with
  | nil => intro blk h; cases h
  | cons x rest ih =>
    intro blk hmem
    rcases List.mem_cons.mp hmem with heq | hmem'
    · subst heq
      simp only [maxBlockNumber, List.foldl_cons]
      rw [maxBlockNumber_aux rest]
      omega
    · have := ih blk hmem'
      simp only [maxBlockNumber, List.foldl_cons] at this ⊢
      rw [maxBlockNumber_aux rest]
      rw [maxBlockNumber_aux rest] at this
      omega

lemma maxBlockNumber_le (blocks : List Block) (ub : ℕ)
    (h : ∀ blk ∈ blocks, blk.number ≤ ub) : maxBlockNumber blocks ≤ ub := by
  induction blocks with
  | nil => simp [maxBlockNumber]
  | cons x rest ih =>
    simp only [maxBlockNumber, List.foldl_cons]
    rw [maxBlockNumber_aux rest]
    have h1 := h x (List.mem_cons_self x rest)
    have h2 := ih (fun blk hm => h blk (List.mem_cons_of_mem x hm))
    simp only [maxBlockNumber] at h2
    omega

lemma lastBlockNumber_mem (blocks : List Block) (hne : blocks ≠ []) :
    ∃ blk ∈ blocks, blk.number = lastBlockNumber blocks := by
  match blocks with
  | [b] => exact ⟨b, List.mem_cons_self b [], rfl⟩
  | a :: b :: rest =>
    rcases lastBlockNumber_mem (b :: rest) (by simp) with ⟨blk, hmem, heq⟩
    exact ⟨blk, List.mem_cons_of_mem a hmem, heq⟩

/-- **C2.** Amended from the claim: `IndexBlocks(addresses, blocks)` sets each
listed address's `lastFiltered` to the number of the *last* block of the list
(`blocks[len(blocks)-1].Number`), not to the maximum.  The two agree exactly
when the last block's number bounds the whole list — in particular for input
sorted ascending by block number — so the result does depend on the order of
the list. -/
theorem C2_indexBlocks_lastFiltered (st : ContractFilterState)
    (addresses : List Address) (blocks : List Block) (a : Address)
    (ha : a ∈ addresses) (hne : blocks ≠ []) :
    (IndexBlocks st addresses blocks).lastFiltered a = lastBlockNumber blocks ∧
    ((∀ blk ∈ blocks, blk.number ≤ lastBlockNumber blocks) →
      lastBlockNumber blocks = maxBlockNumber blocks) := by
  constructor
  · exact updateAllLastFiltered_mem addresses _ st a ha
  · intro hub
    have h1 : lastBlockNumber blocks ≤ maxBlockNumber blocks := by
      rcases lastBlockNumber_mem blocks hne with ⟨blk, hmem, heq⟩
      rw [← heq]
      exact le_maxBlockNumber blocks blk hmem
    have h2 := maxBlockNumber_le blocks (lastBlockNumber blocks) hub
    omega

/-- Baseline filter state: every address at `lastFiltered = 0`. -/
def zeroFilterState : ContractFilterState := ⟨fun _ => 0⟩

/-- **C2 counterexample.** With the batch given in the order `[block 2,
block 1]`, the registered address's `lastFiltered` becomes 1, not the maximum
2; reversing the order yields 2 — the result depends on the list order,
refuting the claim as stated. -/
theorem C2_counterexample :
    (IndexBlocks zeroFilterState [0] [⟨2⟩, ⟨1⟩]).lastFiltered 0 = 1 ∧
    maxBlockNumber [⟨2⟩, ⟨1⟩] = 2 ∧
    (IndexBlocks zeroFilterState [0] [⟨1⟩, ⟨2⟩]).lastFiltered 0 = 2 := by
  decide

/-- Witness for `C2_indexBlocks_lastFiltered` at a concrete ascending batch. -/
theorem C2_indexBlocks_witness :
    (IndexBlocks zeroFilterState [3] [⟨1⟩, ⟨2⟩]).lastFiltered 3 =
      lastBlockNumber [⟨1⟩, ⟨2⟩] ∧
    ((∀ blk ∈ ([⟨1⟩, ⟨2⟩] : List Block), blk.number ≤ lastBlockNumber [⟨1⟩, ⟨2⟩]) →
      lastBlockNumber [⟨1⟩, ⟨2⟩] = maxBlockNumber [⟨1⟩, ⟨2⟩]) :=
  C2_indexBlocks_lastFiltered zeroFilterState [3] [⟨1⟩, ⟨2⟩] 3 (by decide) (by decide)

/-! ## ERC-721 token records

Embeds `RecordERC721Token` and `ERC721TokenByTokenID`.  A token-index document
is keyed by the string `contract-tokenId-heldFrom`; the store is the ordered
list of documents, with identity given by that key triple. -/

structure ERC721Entry where
  contract : Address
  holder : Address
  token : ℕ
  heldFrom : ℕ
  heldUntil : Option ℕ
  deriving DecidableEq

structure TokenStore where
  entries : List ERC721Entry
  deriving DecidableEq

/-- Two documents share the Elasticsearch id `contract-tokenId-heldFrom`. -/
def sameTokenDoc (contract : Address) (tok heldFrom : ℕ) (e : ERC721Entry) : Bool :=
  e.contract == contract && e.token == tok && e.heldFrom == heldFrom

/-- The record's holding interval covers `block`. -/
def heldAtBlock (contract : Address) (tok block : ℕ) (e : ERC721Entry) : Bool :=
  e.contract == contract && e.token == tok && decide (e.heldFrom ≤ block) &&
    (match e.heldUntil with
     | none => true
     | some u => decide (block ≤ u))

/-- Modelled from the spec: the search template `QueryERC721TokenAtBlock` (in
the query-template file, which is not under src) selects the holding record of
`(contract, tokenId)` whose interval covers `block` — `heldFrom ≤ block` and
`heldUntil` null or `≥ block` — with page size 1 (§4.1 and scenario S5 of the
spec). -/
def ERC721TokenByTokenID (st : TokenStore) (contract : Address) (block tok : ℕ) :
    Option ERC721Entry :=
  st.entries.find? (heldAtBlock contract tok block)

/-- Fetch the document with id `contract-tokenId-heldFrom`. -/
def tokenRecord (st : TokenStore) (contract : Address) (tok heldFrom : ℕ) :
    Option ERC721Entry :=
  st.entries.find? (sameTokenDoc contract tok heldFrom)

/-- `RecordERC721Token(contract, holder, block, tokenId)`: look up the holding
record at `block − 1`; create the new open record at id
`contract-tokenId-block` (`OpType: create` fails if that id exists, modelled by
`none`); if a prior record was found, update the document at id
`contract-tokenId-existing.HeldFrom` to `heldUntil = block − 1`. -/
def RecordERC721Token (st : TokenStore) (contract holder : Address) (block tok : ℕ) :
    Option TokenStore :=
  let existing := ERC721TokenByTokenID st contract (block - 1) tok
  if st.entries.any (sameTokenDoc contract tok block) then
    none
  else
    let withNew : TokenStore := ⟨st.entries ++ [⟨contract, holder, tok, block, none⟩]⟩
    match existing with
    | none => some withNew
    | some e =>
      some ⟨withNew.entries.map (fun x =>
        if sameTokenDoc contract tok e.heldFrom x then
          { x with heldUntil := some (block - 1) }
        else x)⟩

/-- Document ids `contract-tokenId-heldFrom` are pairwise distinct, as
Elasticsearch guarantees for any index. -/
def TokenDocIdsUnique (st : TokenStore) : Prop :=
  st.entries.Pairwise
    (fun a b => ¬(a.contract = b.contract ∧ a.token = b.token ∧ a.heldFrom = b.heldFrom))

lemma find?_eq_of_unique {α : Type} (p : α → Bool) (l : List α) (e : α)
    (hmem : e ∈ l) (hp : p e = true) (huniq : ∀ x ∈ l, p x = true → x = e) :
    l.find? p = some e := by
  induction l with
  | nil => cases hmem
  | cons x rest ih =>
    by_cases hx : p x = true
    · have hxe : x = e := huniq x (List.mem_cons_self x rest) hx
      subst hxe
      exact List.find?_cons_of_pos rest hx
    · rw [List.find?_cons_of_neg rest (by simpa using hx)]
      rcases List.mem_cons.mp hmem with heq | hmem'
      · subst heq; exact absurd hp hx
      · exact ih hmem' (fun y hy hpy => huniq y (List.mem_cons_of_mem x hy) hpy)

lemma docId_unique (st : TokenStore) (huniq : TokenDocIdsUnique st)
    (x y : ERC721Entry) (hx : x ∈ st.entries) (hy : y ∈ st.entries)
    (hc : x.contract = y.contract) (ht : x.token = y.token)
    (hh : x.heldFrom = y.heldFrom) : x = y := by
  by_contra hne
  have hsymm : Symmetric (fun a b : ERC721Entry =>
      ¬(a.contract = b.contract ∧ a.token = b.token ∧ a.heldFrom = b.heldFrom)) := by
    intro a b hab ⟨h1, h2, h3⟩
    exact hab ⟨h1.symm, h2.symm, h3.symm⟩
  exact huniq.forall hsymm hx hy hne ⟨hc, ht, hh⟩

lemma sameTokenDoc_iff (c : Address) (tok hf : ℕ) (x : ERC721Entry) :
    sameTokenDoc c tok hf x = true ↔
      x.contract = c ∧ x.token = tok ∧ x.heldFrom = hf := by
  simp [sameTokenDoc, Bool.and_eq_true, and_assoc]

lemma sameTokenDoc_update (c0 : Address) (tok0 f0 : ℕ) (u : Option ℕ)
    (c1 : Address) (tok1 f1 : ℕ) (x : ERC721Entry) :
    sameTokenDoc c1 tok1 f1
      (if sameTokenDoc c0 tok0 f0 x then { x with heldUntil := u } else x) =
      sameTokenDoc c1 tok1 f1 x := by
  by_cases h : sameTokenDoc c0 tok0 f0 x = true
  · simp only [h, if_true]
    rfl
  · simp only [h]
    rw [if_neg (by simp [h])]

/-- **C3.** `RecordERC721Token(C, H, b, T)` closes the prior open record and
opens a new one.  If the store holds a record `(C, T)` with `heldFrom = f`,
`heldUntil = null` covering block `b − 1` (and it is the unique record covering
`b − 1`, per invariant I3), then afterwards the document at id `(C, T, f)` has
`heldUntil = b − 1` and a new document `(C, T, b)` holds holder `H`,
`heldFrom = b`, `heldUntil = null`; if no record covers `b − 1`, only the new
open record is appended. -/
theorem C3_recordERC721 (st : TokenStore) (c H h0 : Address) (tok b f : ℕ)
    (hb : 1 ≤ b)
    (huniq : TokenDocIdsUnique st)
    (hfree : st.entries.any (sameTokenDoc c tok b) = false) :
    ((⟨c, h0, tok, f, none⟩ : ERC721Entry) ∈ st.entries → f ≤ b - 1 →
      (∀ x ∈ st.entries, heldAtBlock c tok (b - 1) x = true →
        x = ⟨c, h0, tok, f, none⟩) →
      ∃ st', RecordERC721Token st c H b tok = some st' ∧
        tokenRecord st' c tok f = some ⟨c, h0, tok, f, some (b - 1)⟩ ∧
        tokenRecord st' c tok b = some ⟨c, H, tok, b, none⟩ ∧
        st'.entries.length = st.entries.length + 1) ∧
    (ERC721TokenByTokenID st c (b - 1) tok = none →
      RecordERC721Token st c H b tok = some ⟨st.entries ++ [⟨c, H, tok, b, none⟩]⟩) := by
  constructor
  · intro hmem hf hmatch
    have hfb : f < b := by omega
    have hheld : heldAtBlock c tok (b - 1) (⟨c, h0, tok, f, none⟩ : ERC721Entry) = true := by
      simp [heldAtBlock, hf]
    have hfind : ERC721TokenByTokenID st c (b - 1) tok = some ⟨c, h0, tok, f, none⟩ :=
      find?_eq_of_unique _ _ _ hmem hheld hmatch
    refine ⟨(⟨(st.entries ++ [(⟨c, H, tok, b, none⟩ : ERC721Entry)]).map (fun x =>
      if sameTokenDoc c tok f x then { x with heldUntil := some (b - 1) } else x)⟩ :
        TokenStore),
      ?_, ?_, ?_, ?_⟩
    · simp only [RecordERC721Token, hfind, hfree]
      rfl
    · show List.find? _ _ = _
      rw [List.find?_map]
      have hcomp : ((sameTokenDoc c tok f) ∘ (fun x =>
          if sameTokenDoc c tok f x then { x with heldUntil := some (b - 1) } else x)) =
          sameTokenDoc c tok f :=
        funext fun x => sameTokenDoc_update c tok f (some (b - 1)) c tok f x
      rw [hcomp, List.find?_append]
      have hl : st.entries.find? (sameTokenDoc c tok f) = some ⟨c, h0, tok, f, none⟩ := by
        apply find?_eq_of_unique _ _ _ hmem (by simp [sameTokenDoc])
        intro x hx hpx
        rcases (sameTokenDoc_iff c tok f x).mp hpx with ⟨h1, h2, h3⟩
        exact docId_unique st huniq x _ hx hmem h1 h2 h3
      rw [hl]
      simp [sameTokenDoc]
    · show List.find? _ _ = _
      rw [List.find?_map]
      have hcomp : ((sameTokenDoc c tok b) ∘ (fun x =>
          if sameTokenDoc c tok f x then { x with heldUntil := some (b - 1) } else x)) =
          sameTokenDoc c tok b :=
        funext fun x => sameTokenDoc_update c tok f (some (b - 1)) c tok b x
      rw [hcomp, List.find?_append]
      have hl : st.entries.find? (sameTokenDoc c tok b) = none := by
        rw [List.find?_eq_none]
        intro x hx
        simp only [List.any_eq_false] at hfree
        exact fun hpx => (hfree x hx) hpx
      rw [hl]
      have hne : ¬(b = f) := by omega
      simp [sameTokenDoc, hne]
    · simp
  · intro hnone
    simp only [RecordERC721Token, hnone, hfree]
    rfl

/-- A one-record store: contract 1, holder 5, token 7, held openly from
block 10. -/
def tokenStoreEx : TokenStore := ⟨[⟨1, 5, 7, 10, none⟩]⟩

/-- Witness for `C3_recordERC721`: transferring token 7 to holder 6 at block 20
closes the prior record at `heldUntil = 19` and opens `(20, null)`. -/
theorem C3_record_witness :
    ∃ st', RecordERC721Token tokenStoreEx 1 6 20 7 = some st' ∧
      tokenRecord st' 1 7 10 = some ⟨1, 5, 7, 10, some 19⟩ ∧
      tokenRecord st' 1 7 20 = some ⟨1, 6, 7, 20, none⟩ ∧
      st'.entries.length = tokenStoreEx.entries.length + 1 :=
  (C3_recordERC721 tokenStoreEx 1 6 5 7 20 10 (by decide)
      (by simp [TokenDocIdsUnique, tokenStoreEx]) (by decide)).1
    (by decide) (by decide) (by decide)

/-! ## The five-chunk ERC-721 sort key

Embeds the key computation of `RecordERC721Token`:
`paddedTokenId := fmt.Sprintf("%085d", tokenId)` produces the decimal digits of
the token id zero-padded on the left to 85 places, and the five sort fields are
the 17-digit chunks `paddedTokenId[0:17] … paddedTokenId[68:85]`, each parsed
as a number (17 decimal digits always fit `strconv.ParseUint`'s 64-bit range).
Digit lists are most-significant-first throughout. -/

/-- The numeric value of a most-significant-first digit list, as
`strconv.ParseUint` computes it. -/
def chunkVal (l : List ℕ) : ℕ := l.foldl (fun acc d => acc * 10 + d) 0

/-- The decimal digits of `t` zero-padded on the left to 85 places,
most significant first. -/
def paddedTokenId (t : ℕ) : List ℕ :=
  let ds := (Nat.digits 10 t).reverse
  List.replicate (85 - ds.length) 0 ++ ds

/-- The `(first, second, third, fourth, fifth)` sort fields. -/
def sortKey (t : ℕ) : ℕ × ℕ × ℕ × ℕ × ℕ :=
  let p := paddedTokenId t
  (chunkVal (p.take 17), chunkVal ((p.drop 17).take 17), chunkVal ((p.drop 34).take 17),
   chunkVal ((p.drop 51).take 17), chunkVal (p.drop 68))

/-- Strict lexicographic order on the five sort fields, as the backend's
`first:desc, …, fifth:desc` sort compares them. -/
def keyLt (x y : ℕ × ℕ × ℕ × ℕ × ℕ) : Prop :=
  x.1 < y.1 ∨ x.1 = y.1 ∧ (x.2.1 < y.2.1 ∨ x.2.1 = y.2.1 ∧
    (x.2.2.1 < y.2.2.1 ∨ x.2.2.1 = y.2.2.1 ∧
      (x.2.2.2.1 < y.2.2.2.1 ∨ x.2.2.2.1 = y.2.2.2.1 ∧ x.2.2.2.2 < y.2.2.2.2)))

/-- Horner recombination of the five fields in base `B`. -/
def keyVal (B : ℕ) (x : ℕ × ℕ × ℕ × ℕ × ℕ) : ℕ :=
  (((x.1 * B + x.2.1) * B + x.2.2.1) * B + x.2.2.2.1) * B + x.2.2.2.2

/-- All five fields below `B`. -/
def keyBounded (B : ℕ) (x : ℕ × ℕ × ℕ × ℕ × ℕ) : Prop :=
  x.1 < B ∧ x.2.1 < B ∧ x.2.2.1 < B ∧ x.2.2.2.1 < B ∧ x.2.2.2.2 < B

lemma chunkVal_aux (l : List ℕ) : ∀ a,
    l.foldl (fun acc d => acc * 10 + d) a = a * 10 ^ l.length + Nat.ofDigits 10 l.reverse := by
  induction l with
  | nil => intro a; simp [Nat.ofDigits]
  | cons d l ih =>
    intro a
    simp only [List.foldl_cons, List.reverse_cons, List.length_cons]
    rw [ih (a * 10 + d), Nat.ofDigits_append]
    simp only [Nat.ofDigits, List.length_reverse]
    push_cast
    ring

lemma chunkVal_eq (l : List ℕ) : chunkVal l = Nat.ofDigits 10 l.reverse := by
  have h := chunkVal_aux l 0
  simpa [chunkVal] using h

lemma chunkVal_lt (l : List ℕ) (h : ∀ d ∈ l, d < 10) : chunkVal l < 10 ^ l.length := by
  rw [chunkVal_eq]
  have hlt := Nat.ofDigits_lt_base_pow_length (b := 10) (l := l.reverse) (by norm_num)
    (fun x hx => h x (List.mem_reverse.mp hx))
  simpa using hlt

lemma ofDigits_replicate_zero (n : ℕ) : Nat.ofDigits 10 (List.replicate n 0) = 0 := by
  induction n with
  | zero => simp [Nat.ofDigits]
  | succ n ih => simp [List.replicate_succ, Nat.ofDigits, ih]

lemma padded_length (t : ℕ) (ht : t < 10 ^ 85) : (paddedTokenId t).length = 85 := by
  have hlen : (Nat.digits 10 t).length ≤ 85 := by
    rcases Nat.eq_zero_or_pos t with h0 | hpos
    · subst h0; simp
    · rw [Nat.digits_len 10 t (by norm_num) (by omega)]
      have hlog : Nat.log 10 t < 85 := Nat.log_lt_of_lt_pow (by omega) ht
      omega
  simp only [paddedTokenId, List.length_append, List.length_replicate, List.length_reverse]
  omega

lemma padded_digits_lt (t : ℕ) : ∀ d ∈ paddedTokenId t, d < 10 := by
  intro d hd
  rcases List.mem_append.mp hd with h | h
  · rw [List.eq_of_mem_replicate h]; norm_num
  · exact Nat.digits_lt_base (by norm_num) (List.mem_reverse.mp h)

lemma padded_val (t : ℕ) : Nat.ofDigits 10 (paddedTokenId t).reverse = t := by
  simp only [paddedTokenId, List.reverse_append, List.reverse_reverse,
    List.reverse_replicate]
  rw [Nat.ofDigits_append, Nat.ofDigits_digits, ofDigits_replicate_zero]
  ring

/-- Splitting a most-significant-first digit list after 17 digits splits its
value: the head chunk carries weight `10 ^ k` where `k` is the tail length. -/
lemma peelChunk (p : List ℕ) (hdig : ∀ d ∈ p, d < 10) (k : ℕ) (hk : 17 + k = p.length) :
    Nat.ofDigits 10 p.reverse =
      Nat.ofDigits 10 (p.drop 17).reverse + 10 ^ k * chunkVal (p.take 17) ∧
      chunkVal (p.take 17) < 10 ^ 17 := by
  constructor
  · conv_lhs => rw [← List.take_append_drop 17 p]
    rw [List.reverse_append, Nat.ofDigits_append, List.length_reverse, List.length_drop,
      chunkVal_eq]
    have hlen : p.length - 17 = k := by omega
    rw [hlen]
  · have hlen : (p.take 17).length = 17 := by
      rw [List.length_take]; omega
    have := chunkVal_lt (p.take 17) (fun d hd => hdig d (List.take_subset 17 p hd))
    rwa [hlen] at this

/-- The five chunks recombine in base `10 ^ 17` to the token id, and each chunk
is below `10 ^ 17`. -/
lemma sortKey_reconstruct (t : ℕ) (ht : t < 10 ^ 85) :
    keyVal (10 ^ 17) (sortKey t) = t ∧ keyBounded (10 ^ 17) (sortKey t) := by
  simp only [sortKey, keyVal, keyBounded]
  set p := paddedTokenId t with hp
  have hlen : p.length = 85 := padded_length t ht
  have hdig : ∀ d ∈ p, d < 10 := padded_digits_lt t
  have hd17 : ∀ d ∈ p.drop 17, d < 10 := fun d hd => hdig d (List.drop_subset 17 p hd)
  have hd34 : ∀ d ∈ p.drop 34, d < 10 := fun d hd => hdig d (List.drop_subset 34 p hd)
  have hd51 : ∀ d ∈ p.drop 51, d < 10 := fun d hd => hdig d (List.drop_subset 51 p hd)
  have hd68 : ∀ d ∈ p.drop 68, d < 10 := fun d hd => hdig d (List.drop_subset 68 p hd)
  have hl17 : (p.drop 17).length = 68 := by rw [List.length_drop, hlen]
  have hl34 : (p.drop 34).length = 51 := by rw [List.length_drop, hlen]
  have hl51 : (p.drop 51).length = 34 := by rw [List.length_drop, hlen]
  have hl68 : (p.drop 68).length = 17 := by rw [List.length_drop, hlen]
  have hdd34 : (p.drop 17).drop 17 = p.drop 34 := by rw [List.drop_drop]
  have hdd51 : (p.drop 34).drop 17 = p.drop 51 := by rw [List.drop_drop]
  have hdd68 : (p.drop 51).drop 17 = p.drop 68 := by rw [List.drop_drop]
  obtain ⟨e1, b1⟩ := peelChunk p hdig 68 (by omega)
  obtain ⟨e2, b2⟩ := peelChunk (p.drop 17) hd17 51 (by omega)
  obtain ⟨e3, b3⟩ := peelChunk (p.drop 34) hd34 34 (by omega)
  obtain ⟨e4, b4⟩ := peelChunk (p.drop 51) hd51 17 (by omega)
  rw [hdd34] at e2
  rw [hdd51] at e3
  rw [hdd68] at e4
  have b5 : chunkVal (p.drop 68) < 10 ^ 17 := by
    have := chunkVal_lt (p.drop 68) hd68
    rwa [hl68] at this
  have e5 : chunkVal (p.drop 68) = Nat.ofDigits 10 (p.drop 68).reverse := chunkVal_eq _
  have hval : Nat.ofDigits 10 p.reverse = t := padded_val t
  refine ⟨?_, b1, b2, b3, b4, b5⟩
  rw [← hval, e1, e2, e3, e4, e5]
  ring

lemma horner_step {B a b s t : ℕ} (hab : a < b) (hs : s < B) :
    a * B + s < b * B + t :=
  calc a * B + s < a * B + B := by omega
    _ = (a + 1) * B := by ring
    _ ≤ b * B := Nat.mul_le_mul_right B hab
    _ ≤ b * B + t := Nat.le_add_right _ _

/-- Lexicographically smaller bounded keys have smaller recombined values. -/
lemma keyVal_lt_of_keyLt (B : ℕ) (x y : ℕ × ℕ × ℕ × ℕ × ℕ)
    (hx : keyBounded B x) (h : keyLt x y) :
    keyVal B x < keyVal B y := by
  obtain ⟨x1, x2, x3, x4, x5⟩ := x
  obtain ⟨y1, y2, y3, y4, y5⟩ := y
  obtain ⟨hx1, hx2, hx3, hx4, hx5⟩ := hx
  simp only [keyLt] at h
  simp only [keyVal]
  rcases h with h1 | ⟨e1, h⟩
  · exact horner_step (horner_step (horner_step (horner_step h1 hx2) hx3) hx4) hx5
  subst e1
  rcases h with h2 | ⟨e2, h⟩
  · exact horner_step (horner_step (horner_step (by omega) hx3) hx4) hx5
  subst e2
  rcases h with h3 | ⟨e3, h⟩
  · exact horner_step (horner_step (by omega) hx4) hx5
  subst e3
  rcases h with h4 | ⟨e4, h5⟩
  · exact horner_step (by omega) hx5
  subst e4
  omega

lemma keyLt_trichotomy (x y : ℕ × ℕ × ℕ × ℕ × ℕ) :
    keyLt x y ∨ x = y ∨ keyLt y x := by
  obtain ⟨x1, x2, x3, x4, x5⟩ := x
  obtain ⟨y1, y2, y3, y4, y5⟩ := y
  simp only [keyLt, Prod.mk.injEq]
  omega

/-- **C4.** The five-chunk sort key preserves numeric order: for token ids
`a < b < 10 ^ 85`, the tuple obtained by zero-padding the decimal
representation to 85 digits and parsing five consecutive 17-digit chunks is
strictly smaller for `a` than for `b` under lexicographic comparison. -/
theorem C4_sortKey_order (a b : ℕ) (hab : a < b) (hb : b < 10 ^ 85) :
    keyLt (sortKey a) (sortKey b) := by
  have ha : a < 10 ^ 85 := lt_trans hab hb
  obtain ⟨hva, hba⟩ := sortKey_reconstruct a ha
  obtain ⟨hvb, _⟩ := sortKey_reconstruct b hb
  rcases keyLt_trichotomy (sortKey a) (sortKey b) with h | h | h
  · exact h
  · rw [h, hvb] at hva; omega
  · have := keyVal_lt_of_keyLt (10 ^ 17) (sortKey b) (sortKey a)
      (sortKey_reconstruct b hb).2 h
    omega

/-- Witness for `C4_sortKey_order` at token ids 3 and 12. -/
theorem C4_sortKey_witness : keyLt (sortKey 3) (sortKey 12) :=
  C4_sortKey_order 3 12 (by norm_num) (by norm_num)

/-! ## Static and dynamic array entry synthesis

Embeds `createArrayStorageDocument` and `roundUpTo32` from
`core/storageparsing/array.go` and `parsers/utils.go`.  The Go loop keeps
`currentSlot`/`currentOffset` registers; the embedding threads them through a
structural recursion on the remaining element count. -/

/-- Rounds up to the nearest multiple of 32. -/
def roundUpTo32 (n : ℕ) : ℕ := ((n + 31) / 32) * 32

structure SolidityStorageEntry where
  offset : ℕ
  slot : ℕ
  type : String
  deriving DecidableEq

/-- The loop body of `createArrayStorageDocument`: append a fake entry at
`(currentSlot, currentOffset)`, add the element size to the offset
(`nextOffset`, inlined below), and when another element no longer fits the
32-byte slot advance the slot by `roundUpTo32(nextOffset)/32` and reset the
offset. -/
def buildArrayEntries (baseType : String) (sizeOfElement : ℕ) :
    ℕ → ℕ → ℕ → List SolidityStorageEntry
  | 0, _, _ => []
  | n + 1, currentSlot, currentOffset =>
    ⟨currentOffset, currentSlot, baseType⟩ ::
      (if currentOffset + sizeOfElement + sizeOfElement > 32 then
         buildArrayEntries baseType sizeOfElement n
           (currentSlot + roundUpTo32 (currentOffset + sizeOfElement) / 32) 0
       else
         buildArrayEntries baseType sizeOfElement n currentSlot
           (currentOffset + sizeOfElement))

/-- `createArrayStorageDocument(sizeOfArray, sizeOfElement, baseType)` (the
storage-entry list of the synthesized document; the types table is carried over
unchanged and not modelled). -/
def createArrayStorageDocument (sizeOfArray sizeOfElement : ℕ) (baseType : String) :
    List SolidityStorageEntry :=
  buildArrayEntries baseType sizeOfElement sizeOfArray 0 0

/-- The greedy packing rule between consecutive synthesized entries: keep the
slot while the running offset plus the element size stays within 32 bytes,
else advance the slot by `ceil(runningOffset/32)` and reset the offset. -/
def PackedStep (size : ℕ) (e e' : SolidityStorageEntry) : Prop :=
  if e.offset + size + size ≤ 32 then
    e'.slot = e.slot ∧ e'.offset = e.offset + size
  else
    e'.slot = e.slot + (e.offset + size + 31) / 32 ∧ e'.offset = 0

lemma packedStep_mk (size o s o' s' : ℕ) (ty ty' : String) :
    PackedStep size ⟨o, s, ty⟩ ⟨o', s', ty'⟩ ↔
      (if o + size + size ≤ 32 then s' = s ∧ o' = o + size
       else s' = s + (o + size + 31) / 32 ∧ o' = 0) := Iff.rfl

lemma buildArrayEntries_succ_pos (baseType : String) (size n s o : ℕ)
    (hfit : o + size + size > 32) :
    buildArrayEntries baseType size (n + 1) s o =
      ⟨o, s, baseType⟩ ::
        buildArrayEntries baseType size n (s + roundUpTo32 (o + size) / 32) 0 := by
  simp only [buildArrayEntries]
  rw [if_pos hfit]

lemma buildArrayEntries_succ_neg (baseType : String) (size n s o : ℕ)
    (hfit : ¬(o + size + size > 32)) :
    buildArrayEntries baseType size (n + 1) s o =
      ⟨o, s, baseType⟩ :: buildArrayEntries baseType size n s (o + size) := by
  simp only [buildArrayEntries]
  rw [if_neg hfit]

lemma buildArrayEntries_length (baseType : String) (size : ℕ) :
    ∀ n s o, (buildArrayEntries baseType size n s o).length = n := by
  intro n
  induction n with
  | zero => intro s o; rfl
  | succ n ih =>
    intro s o
    by_cases hfit : o + size + size > 32
    · rw [buildArrayEntries_succ_pos baseType size n s o hfit]
      simp [ih]
    · rw [buildArrayEntries_succ_neg baseType size n s o hfit]
      simp [ih]

lemma buildArrayEntries_head (baseType : String) (size : ℕ) (n s o : ℕ) (hn : 0 < n) :
    (buildArrayEntries baseType size n s o).get? 0 = some ⟨o, s, baseType⟩ := by
  match n, hn with
  | n + 1, _ =>
    by_cases hfit : o + size + size > 32
    · rw [buildArrayEntries_succ_pos baseType size n s o hfit]; rfl
    · rw [buildArrayEntries_succ_neg baseType size n s o hfit]; rfl

lemma roundUpTo32_div (x : ℕ) : roundUpTo32 x / 32 = (x + 31) / 32 := by
  simp only [roundUpTo32]
  exact Nat.mul_div_cancel _ (by norm_num)

lemma buildArrayEntries_chain (baseType : String) (size : ℕ) :
    ∀ n s o i e e', (buildArrayEntries baseType size n s o).get? i = some e →
      (buildArrayEntries baseType size n s o).get? (i + 1) = some e' →
      PackedStep size e e' := by
  intro n
  induction n with
  | zero => intro s o i e e' he _; simp [buildArrayEntries] at he
  | succ n ih =>
    intro s o i e e' he he'
    by_cases hfit : o + size + size > 32
    · rw [buildArrayEntries_succ_pos baseType size n s o hfit] at he he'
      match i with
      | 0 =>
        have hn : 0 < n := by
          rcases Nat.eq_zero_or_pos n with h0 | h
          · subst h0
            rw [List.get?_cons_succ] at he'
            simp [buildArrayEntries] at he'
          · exact h
        rw [List.get?_cons_zero, Option.some.injEq] at he
        rw [List.get?_cons_succ, buildArrayEntries_head baseType size n _ 0 hn,
          Option.some.injEq] at he'
        subst he
        subst he'
        rw [packedStep_mk, if_neg (by omega)]
        exact ⟨by rw [roundUpTo32_div], rfl⟩
      | Nat.succ j =>
        rw [List.get?_cons_succ] at he he'
        exact ih _ _ j e e' he he'
    · rw [buildArrayEntries_succ_neg baseType size n s o hfit] at he he'
      match i with
      | 0 =>
        have hn : 0 < n := by
          rcases Nat.eq_zero_or_pos n with h0 | h
          · subst h0
            rw [List.get?_cons_succ] at he'
            simp [buildArrayEntries] at he'
          · exact h
        rw [List.get?_cons_zero, Option.some.injEq] at he
        rw [List.get?_cons_succ, buildArrayEntries_head baseType size n _ _ hn,
          Option.some.injEq] at he'
        subst he
        subst he'
        rw [packedStep_mk, if_pos (by omega)]
        exact ⟨rfl, rfl⟩
      | Nat.succ j =>
        rw [List.get?_cons_succ] at he he'
        exact ih _ _ j e e' he he'

/-- **C5.** For every element count `N`, element size and base type,
`createArrayStorageDocument` synthesizes exactly `N` entries, starting at
`(slot 0, offset 0)`, every entry typed with the base type, and each
consecutive pair follows the greedy packing rule: the slot is shared while the
running offset plus the element size stays at most 32 bytes, otherwise the
slot advances by `ceil(runningOffset/32)` and the offset resets to 0. -/
theorem C5_createArrayStorageDocument (N size : ℕ) (baseType : String) :
    (createArrayStorageDocument N size baseType).length = N ∧
    (0 < N → (createArrayStorageDocument N size baseType).get? 0 =
      some ⟨0, 0, baseType⟩) ∧
    (∀ e ∈ createArrayStorageDocument N size baseType, e.type = baseType) ∧
    (∀ i e e', (createArrayStorageDocument N size baseType).get? i = some e →
      (createArrayStorageDocument N size baseType).get? (i + 1) = some e' →
      PackedStep size e e') := by
  refine ⟨buildArrayEntries_length baseType size N 0 0, ?_, ?_, ?_⟩
  · intro hN
    exact buildArrayEntries_head baseType size N 0 0 hN
  · show ∀ e ∈ buildArrayEntries baseType size N 0 0, e.type = baseType
    suffices h : ∀ n s o, ∀ e ∈ buildArrayEntries baseType size n s o, e.type = baseType by
      exact h N 0 0
    intro n
    induction n with
    | zero => intro s o e he; simp [buildArrayEntries] at he
    | succ n ih =>
      intro s o e he
      by_cases hfit : o + size + size > 32
      · rw [buildArrayEntries_succ_pos baseType size n s o hfit] at he
        rcases List.mem_cons.mp he with heq | hmem
        · subst heq; rfl
        · exact ih _ _ e hmem
      · rw [buildArrayEntries_succ_neg baseType size n s o hfit] at he
        rcases List.mem_cons.mp he with heq | hmem
        · subst heq; rfl
        · exact ih _ _ e hmem
  · exact buildArrayEntries_chain baseType size N 0 0

/-- Witness for `C5_createArrayStorageDocument` at `N = 3`, element size 16. -/
theorem C5_createArray_witness :
    (createArrayStorageDocument 3 16 "t_uint128").length = 3 ∧
    PackedStep 16 ⟨16, 0, "t_uint128"⟩ ⟨0, 1, "t_uint128"⟩ :=
  ⟨(C5_createArrayStorageDocument 3 16 "t_uint128").1,
    (C5_createArrayStorageDocument 3 16 "t_uint128").2.2.2 1 ⟨16, 0, "t_uint128"⟩
      ⟨0, 1, "t_uint128"⟩ (by decide) (by decide)⟩

/-! ## Static-array size parsing in determineSize

Embeds the static branch of `determineSize` from `core/storageparsing/array.go`
together with Go's string-slicing semantics: `strings.LastIndex` returns −1
when the character is absent, and `name[low:high]` panics unless
`0 ≤ low ≤ high ≤ len(name)`. -/

/-- `strings.LastIndex(s, c)`: index of the last occurrence, −1 if absent. -/
def lastIndexAux (c : Char) : List Char → ℕ → Int → Int
  | [], _, best => best
  | x :: rest, i, best => lastIndexAux c rest (i + 1) (if x = c then (i : Int) else best)

def lastIndex (s : List Char) (c : Char) : Int := lastIndexAux c s 0 (-1)

/-- Go string slicing `s[low:high]`: defined when `0 ≤ low ≤ high ≤ len(s)`,
a runtime panic (`none`) otherwise. -/
def goSubstring (s : List Char) (low high : Int) : Option (List Char) :=
  if 0 ≤ low ∧ low ≤ high ∧ high ≤ (s.length : Int) then
    some ((s.take high.toNat).drop low.toNat)
  else none

/-- The digit value of a decimal character. -/
def digitVal (c : Char) : Option ℕ :=
  if '0' ≤ c ∧ c ≤ '9' then some (c.toNat - '0'.toNat) else none

/-- The numeric value of an all-decimal-digit character list, `none` on the
empty list or any non-digit. -/
def decDigitsVal (s : List Char) : Option ℕ :=
  if s = [] then none
  else s.foldl (fun acc c =>
    match acc, digitVal c with
    | some a, some d => some (a * 10 + d)
    | _, _ => none) (some 0)

/-- `strconv.ParseUint(s, 10, 0)`: decimal digits only, value within 64 bits. -/
def parseUint64 (s : List Char) : Option ℕ :=
  match decDigitsVal s with
  | some v => if v < 2 ^ 64 then some v else none
  | none => none

/-- The result of the static branch of `determineSize`: a size, a structured
parse error, or a runtime panic from out-of-range slicing. -/
inductive SizeResult
  | ok (n : ℕ)
  | parseError
  | panicked
  deriving DecidableEq

/-- The static (non-dynamic) branch of `determineSize`:
`size := name[strings.LastIndex(name, ")")+1 : strings.LastIndex(name, "_")]`
followed by `strconv.ParseUint(size, 10, 0)`. -/
def determineSize (name : List Char) : SizeResult :=
  match goSubstring name (lastIndex name ')' + 1) (lastIndex name '_') with
  | none => .panicked
  | some size =>
    match parseUint64 size with
    | some n => .ok n
    | none => .parseError

/-- **C6.** On a static array type name whose last underscore precedes its last
closing parenthesis — i.e. no size suffix at all, one of the malformed shapes
the claim says must yield a structured error — `determineSize` slices with
`low > high` and panics instead of returning an error; a name with a
non-numeric suffix between the markers does get the structured error the
claim describes. -/
theorem C6_determineSize_panics :
    determineSize ("t_array(t_uint256)25".toList) = .panicked ∧
    determineSize ("t_array(t_uint256)abc_storage".toList) = .parseError := by
  decide

/-! ## ExtractFromSingleStorage

Embeds `ExtractFromSingleStorage` from `parsers/utils.go`:
`bytes := common.Hex2Bytes(storageEntry)` and the slice
`bytes[32−offset−numberOfBytes : 32−offset]`, where the indices are computed in
`uint64` arithmetic and a byte-slice access out of range panics (`none`). -/

/-- The value of a hexadecimal character. -/
def hexVal (c : Char) : Option ℕ :=
  if '0' ≤ c ∧ c ≤ '9' then some (c.toNat - '0'.toNat)
  else if 'a' ≤ c ∧ c ≤ 'f' then some (c.toNat - 'a'.toNat + 10)
  else if 'A' ≤ c ∧ c ≤ 'F' then some (c.toNat - 'A'.toNat + 10)
  else none

/-- `common.Hex2Bytes`: decode hex pairs, returning the successfully decoded
prefix (the underlying `hex.DecodeString` error is discarded). -/
def hex2Bytes : List Char → List ℕ
  | a :: b :: rest =>
    match hexVal a, hexVal b with
    | some hi, some lo => (16 * hi + lo) :: hex2Bytes rest
    | _, _ => []
  | _ => []

/-- `uint64` reduction of an integer expression. -/
def u64 (x : Int) : ℕ := (x % (2 ^ 64 : Int)).toNat

/-- Go byte-slice `bytes[low:high]`: defined when `low ≤ high ≤ len(bytes)`,
a runtime panic (`none`) otherwise. -/
def goSliceBytes (bytes : List ℕ) (low high : ℕ) : Option (List ℕ) :=
  if low ≤ high ∧ high ≤ bytes.length then some ((bytes.take high).drop low)
  else none

/-- `ExtractFromSingleStorage(offset, numberOfBytes, storageEntry)`. -/
def ExtractFromSingleStorage (offset numberOfBytes : ℕ) (storageEntry : List Char) :
    Option (List ℕ) :=
  let bytes := hex2Bytes storageEntry
  goSliceBytes bytes (u64 (32 - (offset : Int) - (numberOfBytes : Int)))
    (u64 (32 - (offset : Int)))

/-- **C7.** For `offset + numberOfBytes ≤ 32` and a storage word decoding to 32
bytes, `ExtractFromSingleStorage` returns exactly the byte slice
`word[32 − offset − numberOfBytes : 32 − offset]` — the `numberOfBytes`-wide
right-aligned field at the given packing offset. -/
theorem C7_extractFromSingleStorage (offset numberOfBytes : ℕ) (w : List Char)
    (hoff : offset + numberOfBytes ≤ 32) (hlen : (hex2Bytes w).length = 32) :
    ExtractFromSingleStorage offset numberOfBytes w =
      some (((hex2Bytes w).drop (32 - offset - numberOfBytes)).take numberOfBytes) := by
  have h1 : u64 (32 - (offset : Int) - (numberOfBytes : Int)) =
      32 - offset - numberOfBytes := by
    unfold u64; omega
  have h2 : u64 (32 - (offset : Int)) = 32 - offset := by
    unfold u64; omega
  unfold ExtractFromSingleStorage goSliceBytes
  rw [h1, h2]
  simp only
  rw [hlen, if_pos (by omega)]
  have h3 : 32 - offset - (32 - offset - numberOfBytes) = numberOfBytes := by omega
  rw [List.drop_take, h3]

/-- A 32-byte storage word as a 64-character hex string. -/
def exampleWord : List Char :=
  "0000000000000000000000000000000000000000000000000000000000001234".toList

/-- Witness for `C7_extractFromSingleStorage`: the 2-byte field at offset 0 of
a concrete word. -/
theorem C7_extract_witness :
    ExtractFromSingleStorage 0 2 exampleWord =
      some (((hex2Bytes exampleWord).drop 30).take 2) :=
  C7_extractFromSingleStorage 0 2 exampleWord (by norm_num) (by decide)

/-! ## Pagination gates

Embeds the pagination checks of `GetAllTransactionsToAddress`,
`GetAllTransactionsInternalToAddress`, `GetAllEventsFromAddress` and
`GetBalance`: `from := options.PageSize * options.PageNumber` followed by
`if from+options.PageSize > 1000 { return ErrPaginationLimitExceeded }`.
`PageSize` and `PageNumber` are Go `int`s (64-bit), so both steps wrap in
two's-complement arithmetic — `wrap64` below.  The search itself is an
abstract parameter: it stands for the Elasticsearch round trip and may fail
with a backend error, never with the pagination error. -/

/-- Two's-complement reduction of an integer into `[-2^63, 2^63)`. -/
def wrap64 (x : Int) : Int := (x + 2 ^ 63) % 2 ^ 64 - 2 ^ 63

inductive DBError
  | paginationLimitExceeded
  | backendFailure
  | invalidAmount
  deriving DecidableEq

structure QueryOptions where
  pageSize : Int
  pageNumber : Int
  deriving DecidableEq

/-- The shared gate: compute `from` and test `from + pageSize > 1000` in
`int` arithmetic. -/
def paginationExceeded (options : QueryOptions) : Prop :=
  wrap64 (wrap64 (options.pageSize * options.pageNumber) + options.pageSize) > 1000

instance (options : QueryOptions) : Decidable (paginationExceeded options) := by
  unfold paginationExceeded
  infer_instance

def GetAllTransactionsToAddress (search : Int → Int → Except Unit (List ℕ))
    (address : Address) (options : QueryOptions) : Except DBError (List ℕ) :=
  if wrap64 (wrap64 (options.pageSize * options.pageNumber) + options.pageSize) > 1000 then
    .error .paginationLimitExceeded
  else
    match search (wrap64 (options.pageSize * options.pageNumber)) options.pageSize with
    | .error _ => .error .backendFailure
    | .ok hits => .ok hits

def GetAllTransactionsInternalToAddress (search : Int → Int → Except Unit (List ℕ))
    (address : Address) (options : QueryOptions) : Except DBError (List ℕ) :=
  if wrap64 (wrap64 (options.pageSize * options.pageNumber) + options.pageSize) > 1000 then
    .error .paginationLimitExceeded
  else
    match search (wrap64 (options.pageSize * options.pageNumber)) options.pageSize with
    | .error _ => .error .backendFailure
    | .ok hits => .ok hits

def GetAllEventsFromAddress (search : Int → Int → Except Unit (List ℕ))
    (address : Address) (options : QueryOptions) : Except DBError (List ℕ) :=
  if wrap64 (wrap64 (options.pageSize * options.pageNumber) + options.pageSize) > 1000 then
    .error .paginationLimitExceeded
  else
    match search (wrap64 (options.pageSize * options.pageNumber)) options.pageSize with
    | .error _ => .error .backendFailure
    | .ok hits => .ok hits

/-- `big.Int.SetString(s, 10)`: optional sign followed by decimal digits. -/
def parseBigInt (s : List Char) : Option Int :=
  match s with
  | '+' :: rest => (decDigitsVal rest).map (fun v => (v : Int))
  | '-' :: rest => (decDigitsVal rest).map (fun v => -(v : Int))
  | _ => (decDigitsVal s).map (fun v => (v : Int))

/-- The result-conversion loop of `GetBalance`: parse every hit's decimal
`amount`, failing on the first unparseable one (Go's `some error`). -/
def parseBalances : List (ℕ × List Char) → Option (List (ℕ × Int))
  | [] => some []
  | h :: rest =>
    match parseBigInt h.2, parseBalances rest with
    | some v, some l => some ((h.1, v) :: l)
    | _, _ => none

def GetBalance (search : Int → Int → Except Unit (List (ℕ × List Char)))
    (contract holder : Address) (options : QueryOptions) :
    Except DBError (List (ℕ × Int)) :=
  if wrap64 (wrap64 (options.pageSize * options.pageNumber) + options.pageSize) > 1000 then
    .error .paginationLimitExceeded
  else
    match search (wrap64 (options.pageSize * options.pageNumber)) options.pageSize with
    | .error _ => .error .backendFailure
    | .ok hits =>
      match parseBalances hits with
      | some balances => .ok balances
      | none => .error .invalidAmount

lemma wrap64_eq_self (x : Int) (hlo : -(2 ^ 63) ≤ x) (hhi : x < 2 ^ 63) :
    wrap64 x = x := by
  unfold wrap64
  omega

/-- **C8.** Amended from the claim: the four paginated queries return
`PaginationLimitExceeded` iff the Go `int` (64-bit, wrapping) computation
`from := pageSize * pageNumber; from + pageSize` exceeds 1000; within that
bound the check passes and no such error is produced.  Whenever neither step
overflows `int64` — every realistic page parameter — the condition is exactly
the claim's mathematical `pageSize × pageNumber + pageSize > 1000`. -/
theorem C8_paginationGates (searchT searchI searchE : Int → Int → Except Unit (List ℕ))
    (searchB : Int → Int → Except Unit (List (ℕ × List Char)))
    (address contract holder : Address) (options : QueryOptions) :
    (GetAllTransactionsToAddress searchT address options =
        .error .paginationLimitExceeded ↔ paginationExceeded options) ∧
    (GetAllTransactionsInternalToAddress searchI address options =
        .error .paginationLimitExceeded ↔ paginationExceeded options) ∧
    (GetAllEventsFromAddress searchE address options =
        .error .paginationLimitExceeded ↔ paginationExceeded options) ∧
    (GetBalance searchB contract holder options =
        .error .paginationLimitExceeded ↔ paginationExceeded options) ∧
    (-(2 ^ 63) ≤ options.pageSize * options.pageNumber →
      options.pageSize * options.pageNumber < 2 ^ 63 →
      -(2 ^ 63) ≤ options.pageSize * options.pageNumber + options.pageSize →
      options.pageSize * options.pageNumber + options.pageSize < 2 ^ 63 →
      (paginationExceeded options ↔
        options.pageSize * options.pageNumber + options.pageSize > 1000)) := by
  refine ⟨?_, ?_, ?_, ?_, ?_⟩
  · unfold GetAllTransactionsToAddress paginationExceeded
    by_cases h : wrap64 (wrap64 (options.pageSize * options.pageNumber) +
        options.pageSize) > 1000
    · simp [h]
    · simp only [h, if_false]
      cases hs : searchT (wrap64 (options.pageSize * options.pageNumber))
          options.pageSize <;> simp [h]
  · unfold GetAllTransactionsInternalToAddress paginationExceeded
    by_cases h : wrap64 (wrap64 (options.pageSize * options.pageNumber) +
        options.pageSize) > 1000
    · simp [h]
    · simp only [h, if_false]
      cases hs : searchI (wrap64 (options.pageSize * options.pageNumber))
          options.pageSize <;> simp [h]
  · unfold GetAllEventsFromAddress paginationExceeded
    by_cases h : wrap64 (wrap64 (options.pageSize * options.pageNumber) +
        options.pageSize) > 1000
    · simp [h]
    · simp only [h, if_false]
      cases hs : searchE (wrap64 (options.pageSize * options.pageNumber))
          options.pageSize <;> simp [h]
  · unfold GetBalance paginationExceeded
    by_cases h : wrap64 (wrap64 (options.pageSize * options.pageNumber) +
        options.pageSize) > 1000
    · simp [h]
    · simp only [h, if_false]
      cases hs : searchB (wrap64 (options.pageSize * options.pageNumber))
          options.pageSize
      · simp [h]
      · next hits =>
        cases hm : parseBalances hits <;> simp [h, hm]
  · intro h1 h2 h3 h4
    unfold paginationExceeded
    rw [wrap64_eq_self _ h1 h2, wrap64_eq_self _ h3 h4]

def emptySearch : Int → Int → Except Unit (List ℕ) := fun _ _ => .ok []

def emptyBalanceSearch : Int → Int → Except Unit (List (ℕ × List Char)) :=
  fun _ _ => .ok []

/-- **C8 counterexample.** At `pageSize = 2`, `pageNumber = 2^62` the
mathematical product overflows `int64`: the computed `from` wraps to `-2^63`,
the check passes and the query succeeds, although
`pageSize × pageNumber + pageSize = 2^63 + 2` far exceeds 1000 — refuting the
claim's iff read over unbounded integers. -/
theorem C8_counterexample :
    (2 : Int) * 2 ^ 62 + 2 > 1000 ∧
    GetAllTransactionsToAddress emptySearch 0 ⟨2, 2 ^ 62⟩ = .ok [] := by
  constructor
  · decide
  · rfl

/-- Witness for `C8_paginationGates` at the default options
`pageSize = 10, pageNumber = 0`. -/
theorem C8_pagination_witness :
    (GetAllTransactionsToAddress emptySearch 0 ⟨10, 0⟩ =
        .error .paginationLimitExceeded ↔ paginationExceeded ⟨10, 0⟩) ∧
    (paginationExceeded ⟨10, 0⟩ ↔ (10 : Int) * 0 + 10 > 1000) :=
  ⟨(C8_paginationGates emptySearch emptySearch emptySearch emptyBalanceSearch
      0 0 0 ⟨10, 0⟩).1,
    (C8_paginationGates emptySearch emptySearch emptySearch emptyBalanceSearch
      0 0 0 ⟨10, 0⟩).2.2.2.2 (by decide) (by decide) (by decide) (by decide)⟩

/-! ## Address registration

Embeds `AddAddresses` and `AddAddressFrom`.  Contract documents live in the
`Contract` index keyed by the address string; both operations index with
`OpType: create`, which only creates when the document does not exist.
`AddAddressFrom` stores `LastFiltered: from - 1` in `uint64` arithmetic. -/

structure Contract where
  address : Address
  templateName : String
  creationTransaction : String
  lastFiltered : ℕ
  deriving DecidableEq

structure ContractIndex where
  contracts : List (Address × Contract)
  deriving DecidableEq

def lookupContract (st : ContractIndex) (a : Address) : Option Contract :=
  (st.contracts.find? (fun p => p.1 == a)).map Prod.snd

/-- An `esapi.IndexRequest` with `OpType: "create"`: creates the document only
if the id is absent (the version-conflict error on an existing id leaves the
index unchanged). -/
def createContract (st : ContractIndex) (a : Address) (c : Contract) : ContractIndex :=
  match lookupContract st a with
  | some _ => st
  | none => ⟨st.contracts ++ [(a, c)]⟩

/-- `address.String()`. -/
def addrString (a : Address) : String := toString a

/-- `AddAddressFrom(address, from)`: create the contract document with
`TemplateName: address.String()`, empty creation transaction, and
`LastFiltered: from - 1` in `uint64` arithmetic (wrapping at `from = 0`). -/
def AddAddressFrom (st : ContractIndex) (address : Address) (fromBlock : ℕ) :
    ContractIndex :=
  createContract st address
    ⟨address, addrString address, "", (fromBlock + (2 ^ 64 - 1)) % 2 ^ 64⟩

/-- `AddAddresses(addresses)`: a no-op on the empty list, a single create for
one address, a bulk create otherwise — every path creates contracts with
`LastFiltered: 0`. -/
def AddAddresses (st : ContractIndex) (addresses : List Address) : ContractIndex :=
  addresses.foldl (fun s a => createContract s a ⟨a, addrString a, "", 0⟩) st

def GetLastFiltered (st : ContractIndex) (a : Address) : Option ℕ :=
  (lookupContract st a).map Contract.lastFiltered

lemma lookupContract_create_new (st : ContractIndex) (a : Address) (c : Contract)
    (hnew : lookupContract st a = none) (b : Address) :
    lookupContract (createContract st a c) b =
      if b = a then some c else lookupContract st b := by
  unfold createContract
  rw [hnew]
  unfold lookupContract
  rw [List.find?_append]
  by_cases hb : b = a
  · subst hb
    have hf : st.contracts.find? (fun p => p.1 == b) = none := by
      unfold lookupContract at hnew
      cases hf : st.contracts.find? (fun p => p.1 == b)
      · rfl
      · rw [hf] at hnew; simp at hnew
    rw [hf]
    simp [List.find?]
  · have h2 : ([(a, c)] : List (Address × Contract)).find? (fun p => p.1 == b) = none := by
      simp only [List.find?]
      rw [show ((a, c).1 == b) = false from by
        simp [beq_iff_eq]; exact fun h => hb h.symm]
    rw [h2, if_neg hb]
    simp

lemma lookupContract_create_preserve (st : ContractIndex) (a : Address) (c : Contract)
    (b : Address) (x : Contract) (hx : lookupContract st b = some x) :
    lookupContract (createContract st a c) b = some x := by
  unfold createContract
  cases hl : lookupContract st a
  · unfold lookupContract at hx ⊢
    rw [List.find?_append]
    cases hf : st.contracts.find? (fun p => p.1 == b)
    · rw [hf] at hx; simp at hx
    · rw [hf] at hx
      simpa using hx
  · exact hx

lemma lookupContract_create_other (st : ContractIndex) (x : Address) (c : Contract)
    (a : Address) (hax : a ≠ x) :
    lookupContract (createContract st x c) a = lookupContract st a := by
  unfold createContract
  cases hl : lookupContract st x
  · unfold lookupContract
    rw [List.find?_append]
    have h2 : ([(x, c)] : List (Address × Contract)).find? (fun p => p.1 == a) = none := by
      simp only [List.find?]
      rw [show ((x, c).1 == a) = false from by
        simp [beq_iff_eq]; exact fun h => hax h.symm]
    rw [h2]
    simp
  · rfl

lemma addAddresses_preserve (addrs : List Address) :
    ∀ (st : ContractIndex) (b : Address) (x : Contract),
      lookupContract st b = some x →
      lookupContract (AddAddresses st addrs) b = some x := by
  induction addrs with
  | nil => intro st b x hx; exact hx
  | cons y rest ih =>
    intro st b x hx
    exact ih _ b x (lookupContract_create_preserve st y _ b x hx)

lemma addAddresses_new (addrs : List Address) :
    ∀ (st : ContractIndex) (a : Address), a ∈ addrs → lookupContract st a = none →
      GetLastFiltered (AddAddresses st addrs) a = some 0 := by
  induction addrs with
  | nil => intro st a ha; cases ha
  | cons x rest ih =>
    intro st a ha hnone
    show GetLastFiltered
      (AddAddresses (createContract st x ⟨x, addrString x, "", 0⟩) rest) a = some 0
    by_cases hax : a = x
    · subst hax
      have hl : lookupContract (createContract st a ⟨a, addrString a, "", 0⟩) a =
          some ⟨a, addrString a, "", 0⟩ := by
        rw [lookupContract_create_new st a _ hnone a, if_pos rfl]
      have hp := addAddresses_preserve rest _ a _ hl
      unfold GetLastFiltered
      rw [hp]
      rfl
    · rcases List.mem_cons.mp ha with h | h
      · exact absurd h hax
      · apply ih _ a h
        rw [lookupContract_create_other st x _ a hax]
        exact hnone

/-- **C9.** Amended from the claim: for `1 ≤ from < 2^64`, `AddAddressFrom(A,
from)` registers a fresh address with `lastFiltered = from − 1` (so filtering
resumes at block `from`), and `AddAddresses` registers each new address with
`lastFiltered = 0`.  At `from = 0` the `uint64` subtraction wraps to
`2^64 − 1` instead (see the counterexample). -/
theorem C9_addAddressFrom (st : ContractIndex) (a : Address) (fromBlock : ℕ)
    (hfrom : 1 ≤ fromBlock) (hrange : fromBlock < 2 ^ 64)
    (hnew : lookupContract st a = none) :
    GetLastFiltered (AddAddressFrom st a fromBlock) a = some (fromBlock - 1) ∧
    ∀ addrs, a ∈ addrs → GetLastFiltered (AddAddresses st addrs) a = some 0 := by
  constructor
  · unfold AddAddressFrom GetLastFiltered
    rw [lookupContract_create_new st a _ hnew a, if_pos rfl]
    show some ((fromBlock + (2 ^ 64 - 1)) % 2 ^ 64) = some (fromBlock - 1)
    have hmod : (fromBlock + (2 ^ 64 - 1)) % 2 ^ 64 = fromBlock - 1 := by omega
    rw [hmod]
  · intro addrs ha
    exact addAddresses_new addrs st a ha hnew

def emptyContractIndex : ContractIndex := ⟨[]⟩

/-- **C9 counterexample.** At `from = 0` the stored `lastFiltered` is the
wrapped `uint64` value `2^64 − 1`, not `from − 1 = −1`; in particular
`lastFiltered + 1 ≠ from`, so filtering does not resume at block 0 (every
block number satisfies `number ≤ lastFiltered` and is skipped). -/
theorem C9_counterexample :
    GetLastFiltered (AddAddressFrom emptyContractIndex 7 0) 7 = some (2 ^ 64 - 1) ∧
    2 ^ 64 - 1 + 1 ≠ 0 := by
  constructor
  · rfl
  · decide

/-- Witness for `C9_addAddressFrom` at a fresh index, `from = 5`. -/
theorem C9_addAddress_witness :
    GetLastFiltered (AddAddressFrom emptyContractIndex 7 5) 7 = some 4 ∧
    GetLastFiltered (AddAddresses emptyContractIndex [7]) 7 = some 0 := by
  have h := C9_addAddressFrom emptyContractIndex 7 5 (by decide)
    (by norm_num) (by decide)
  exact ⟨h.1, h.2 [7] (by decide)⟩

/-! ## GetContractABI / GetStorageLayout and NotFound absorption

Embeds `GetContractABI` and `GetStorageLayout`.  Each document fetch returns
Go's `(pointer, error)` pair: a missing document yields `(nil, ErrNotFound)`, a
backend failure `(nil, transient)`.  The functions drop `ErrNotFound`
(`err != nil && err != database.ErrNotFound`), skip the nil pointer, and fall
through to `("", nil)`. -/

inductive ESError
  | notFound
  | transientFailure
  deriving DecidableEq

inductive FetchResult (α : Type)
  | ok (a : α)
  | notFound
  | transientFailure
  deriving DecidableEq

structure Template where
  templateName : String
  abi : String
  storageABI : String
  deriving DecidableEq

/-- The backend as seen by the two getters: what fetching a contract document
or a template document returns. -/
structure ReportingDB where
  fetchContract : Address → FetchResult Contract
  fetchTemplate : String → FetchResult Template

/-- `getContractByAddress`, as Go's `(pointer, error)` pair. -/
def getContractByAddress (db : ReportingDB) (a : Address) :
    Option Contract × Option ESError :=
  match db.fetchContract a with
  | .ok c => (some c, none)
  | .notFound => (none, some .notFound)
  | .transientFailure => (none, some .transientFailure)

/-- `getTemplateByName`, as Go's `(pointer, error)` pair. -/
def getTemplateByName (db : ReportingDB) (name : String) :
    Option Template × Option ESError :=
  match db.fetchTemplate name with
  | .ok t => (some t, none)
  | .notFound => (none, some .notFound)
  | .transientFailure => (none, some .transientFailure)

def GetContractABI (db : ReportingDB) (address : Address) : String × Option ESError :=
  match getContractByAddress db address with
  | (contract, err) =>
    if err ≠ none ∧ err ≠ some .notFound then ("", err)
    else
      match contract with
      | some c =>
        match getTemplateByName db c.templateName with
        | (template, terr) =>
          if terr ≠ none ∧ terr ≠ some .notFound then ("", terr)
          else
            match template with
            | some t => (t.abi, none)
            | none => ("", none)
      | none => ("", none)

def GetStorageLayout (db : ReportingDB) (address : Address) : String × Option ESError :=
  match getContractByAddress db address with
  | (contract, err) =>
    if err ≠ none ∧ err ≠ some .notFound then ("", err)
    else
      match contract with
      | some c =>
        match getTemplateByName db c.templateName with
        | (template, terr) =>
          if terr ≠ none ∧ terr ≠ some .notFound then ("", terr)
          else
            match template with
            | some t => (t.storageABI, none)
            | none => ("", none)
      | none => ("", none)

/-- **C10.** For an address with no contract document, or whose template has no
stored document, `GetContractABI` and `GetStorageLayout` return the empty
string with a nil error: the underlying NotFound is absorbed, never
propagated. -/
theorem C10_notFound_absorbed (db : ReportingDB) (a : Address) :
    (db.fetchContract a = .notFound →
      GetContractABI db a = ("", none) ∧ GetStorageLayout db a = ("", none)) ∧
    (∀ c, db.fetchContract a = .ok c → db.fetchTemplate c.templateName = .notFound →
      GetContractABI db a = ("", none) ∧ GetStorageLayout db a = ("", none)) := by
  constructor
  · intro h
    constructor
    · unfold GetContractABI getContractByAddress
      rw [h]
      simp
    · unfold GetStorageLayout getContractByAddress
      rw [h]
      simp
  · intro c hc ht
    constructor
    · unfold GetContractABI getContractByAddress getTemplateByName
      simp [hc, ht]
    · unfold GetStorageLayout getContractByAddress getTemplateByName
      simp [hc, ht]

/-- A backend with one registered contract whose template has no document, and
nothing else. -/
def dbOneContract : ReportingDB :=
  ⟨fun a => if a = 1 then .ok ⟨1, "tpl", "", 0⟩ else .notFound,
   fun _ => .notFound⟩

/-- Witness for `C10_notFound_absorbed`: an unregistered address and a
registered address with a missing template document both yield `("", nil)`. -/
theorem C10_notFound_witness :
    GetContractABI dbOneContract 2 = ("", none) ∧
    GetStorageLayout dbOneContract 1 = ("", none) :=
  ⟨((C10_notFound_absorbed dbOneContract 2).1 (by decide)).1,
    ((C10_notFound_absorbed dbOneContract 1).2 ⟨1, "tpl", "", 0⟩ (by decide)
      (by decide)).2⟩

end QuorumReport
